import Mathlib

/-!
Shallow embedding of the st7735 LCD driver (Go package st7735) and proofs
of the specification claims about it.

The embedding translates, from the Go source:
  * the geometry providers ModelStandard and ModelMini,
  * the Command record and the fixed initialization command table built by New,
  * the command-issuing loop of New (over an oracle of per-command send results),
  * setWindowAddress's column/row/memory-write command construction,
  * toRGB565 (pixel packing, buffer allocation, the column-major write loop
    with its bounds-checked writes), and
  * sendData's chunking loop (dc-pin result, per-chunk bus transactions whose
    results the loop discards).

Machine integers are modelled as Nat; Go image coordinates use Int.  Fallible
steps (slice-bounds panics of the write loop, negative make sizes) are
modelled with Option: none models a runtime panic.
-/

namespace ST7735

/-! ### Fixed constants (Go: const block) -/

def width : Nat := 162
def height : Nat := 132

def softwareRst : Nat := 0x01
def sleepOut : Nat := 0x11
def partialOff : Nat := 0x13
def inverseOff : Nat := 0x21
def displayOn : Nat := 0x29
def columnAddress : Nat := 0x2A
def rowAddress : Nat := 0x2B
def memoryWrite : Nat := 0x2C
def memoryDAC : Nat := 0x36
def pixelFormat : Nat := 0x3a
def frameControl1 : Nat := 0xB1
def frameControl2 : Nat := 0xB2
def frameControl3 : Nat := 0xB3
def invControl : Nat := 0xB4
def powerControl1 : Nat := 0xC0
def powerControl2 : Nat := 0xC1
def powerControl3 : Nat := 0xC2
def powerControl4 : Nat := 0xC3
def powerControl5 : Nat := 0xC4
def vmControl1 : Nat := 0xC5
def gammaControlPositive : Nat := 0xE0
def gammaControlNegative : Nat := 0xE1

/-- Go time.Duration is int64 nanoseconds; one millisecond in nanoseconds. -/
def millisecond : Nat := 1000000

/-! ### Panel geometry (Go: Model interface, ModelStandard, ModelMini)

The four accessors are pure and return Go bytes; both variants' values fit
in a byte without wrap, so Nat is a faithful model. -/

structure ModelOffsets where
  offsetX : Nat
  offsetXEnd : Nat
  offsetY : Nat
  offsetYEnd : Nat
deriving DecidableEq

/-- Go ModelStandard: OffsetX 0, OffsetXEnd width-1, OffsetY 0, OffsetYEnd height-1. -/
def ModelStandard : ModelOffsets :=
  { offsetX := 0
    offsetXEnd := width - 1
    offsetY := 0
    offsetYEnd := height - 1 }

/-- Go ModelMini: OffsetY (width-160)/2, OffsetYEnd (160+OffsetY)-1,
OffsetX (height-80)/2, OffsetXEnd (80+OffsetX)-1, exactly as in the source
(the width/height constants are swapped across the axis names there). -/
def ModelMini : ModelOffsets :=
  { offsetX := (height - 80) / 2
    offsetXEnd := (80 + (height - 80) / 2) - 1
    offsetY := (width - 160) / 2
    offsetYEnd := (160 + (width - 160) / 2) - 1 }

/-! ### Commands (Go: type Command struct) -/

/-- Go Command: opcode byte, optional payload (Go nil slice modelled as
none), delay in nanoseconds. -/
structure Command where
  command : Nat
  data : Option (List Nat) := none
  delay : Nat := 0
deriving DecidableEq

/-- The ordered command list that New builds and issues after the hardware
reset, byte for byte from the source. -/
def initCommands (m : ModelOffsets) : List Command :=
  [ { command := softwareRst, delay := 50 * millisecond }
  , { command := sleepOut, delay := 50 * millisecond }
  , { command := frameControl1, data := some [0x01, 0x2C, 0x2D] }
  , { command := frameControl2, data := some [0x01, 0x2C, 0x2D] }
  , { command := frameControl3, data := some [0x01, 0x2C, 0x2D, 0x01, 0x2C, 0x2D] }
  , { command := invControl, data := some [0x07] }
  , { command := powerControl1, data := some [0xA2, 0x02, 0x84] }
  , { command := powerControl2, data := some [0xC5] }
  , { command := powerControl3, data := some [0x0A, 0x00] }
  , { command := powerControl4, data := some [0x8A, 0x2A] }
  , { command := powerControl5, data := some [0x8A, 0xEE] }
  , { command := vmControl1, data := some [0x0E] }
  , { command := inverseOff }
  , { command := memoryDAC, data := some [0xC8] }
  , { command := pixelFormat, data := some [0x05] }
  , { command := columnAddress,
      data := some [columnAddress, 0x00, m.offsetX, 0x00, m.offsetXEnd] }
  , { command := rowAddress,
      data := some [rowAddress, 0x00, m.offsetY, 0x00, m.offsetYEnd] }
  , { command := gammaControlPositive,
      data := some [0x02, 0x1C, 0x07, 0x12, 0x37, 0x32, 0x29, 0x2D,
                    0x29, 0x25, 0x2B, 0x39, 0x00, 0x01, 0x03, 0x10] }
  , { command := gammaControlNegative,
      data := some [0x03, 0x1d, 0x07, 0x06, 0x2E, 0x2C, 0x29, 0x2D,
                    0x2E, 0x2E, 0x37, 0x3F, 0x00, 0x00, 0x02, 0x10] }
  , { command := partialOff,
      data := some [0x03, 0x1d, 0x07, 0x06, 0x2E, 0x2C, 0x29, 0x2D,
                    0x2E, 0x2E, 0x37, 0x3F, 0x00, 0x00, 0x02, 0x10],
      delay := 10 * millisecond }
  , { command := displayOn,
      data := some [0x03, 0x1d, 0x07, 0x06, 0x2E, 0x2C, 0x29, 0x2D,
                    0x2E, 0x2E, 0x37, 0x3F, 0x00, 0x00, 0x02, 0x10],
      delay := 100 * millisecond }
  ]

/-! ### The command-issuing loop of New

New runs: for each command c in order, if send(c) fails it returns that
error at once.  We model the environment by an oracle giving each position's
send result, and record which commands were issued (a failing send still
issues its command's bytes up to the failure). -/

structure Err where
  code : Nat
deriving DecidableEq

/-- The command loop of New, over a per-position send-result oracle: returns
the commands whose send was attempted, and the first error if any. -/
def runInitFrom (res : Nat → Option Err) : Nat → List Command → List Command × Option Err
  | _, [] => ([], none)
  | i, c :: cs =>
    match res i with
    | some e => ([c], some e)
    | none =>
      let r := runInitFrom res (i + 1) cs
      (c :: r.1, r.2)

/-- The initialization phase of New for geometry m under send oracle res. -/
def newInit (m : ModelOffsets) (res : Nat → Option Err) : List Command × Option Err :=
  runInitFrom res 0 (initCommands m)

/-! ### setWindowAddress (Go: Dev.setWindowAddress)

Coordinates are Go bytes, so the shifts x0 >> 8 etc. operate on byte
values.  The three commands are issued in order: column, row, memory-write
(the last with no payload). -/

def columnCommand (x0 x1 : Nat) : Command :=
  { command := columnAddress, data := some [x0 >>> 8, x0, x1 >>> 8, x1] }

def rowCommand (y0 y1 : Nat) : Command :=
  { command := rowAddress, data := some [y0 >>> 8, y0, y1 >>> 8, y1] }

def setWindowAddressCommands (x0 x1 y0 y1 : Nat) : List Command :=
  [columnCommand x0 x1, rowCommand y0 y1, { command := memoryWrite }]

/-! ### Images and toRGB565 (Go: toRGB565)

A Go image.Image is modelled by its bounds rectangle (Int coordinates, as
Go int) and a total per-pixel color query; At(x, y).RGBA() returns the four
channels as 16-bit-normalized values.  toRGB565:

  b := img.Bounds()
  rgb565 := make([]byte, b.Dx()*b.Dy()*2)      -- panics if the size is negative
  i := 0
  for x := 0; x < b.Max.X; x++
    for y := 0; y < b.Max.Y; y++
      r, g, b, _ := img.At(x, y).RGBA()
      BigEndian.PutUint16(rgb565[i:i+2], ...)  -- panics if i+2 > len
      i += 2

none models a panic (negative allocation size, or a write past the end of
the buffer). -/

structure Color where
  r : Nat
  g : Nat
  b : Nat
  a : Nat

structure Image where
  minX : Int
  minY : Int
  maxX : Int
  maxY : Int
  colorAt : Int → Int → Color

/-- The packed 16-bit pixel value:
uint16((r<<8)&0b1111100000000000 | (g<<3)&0b0000011111100000 | (b>>3)&0b0000000000011111).
Each masked field is below 2^16, so the Go uint32 arithmetic and the final
uint16 cast never wrap and Nat is a faithful model. -/
def pixelToRGB565 (c : Color) : Nat :=
  ((c.r <<< 8) &&& 0b1111100000000000) |||
    ((c.g <<< 3) &&& 0b0000011111100000) |||
    ((c.b >>> 3) &&& 0b0000000000011111)

/-- binary.BigEndian.PutUint16 into rgb565[i:i+2]: fails (Go: panics on the
slice bounds) when i+2 exceeds the buffer length. -/
def putUint16BE (buf : List Nat) (i : Nat) (v : Nat) : Option (List Nat) :=
  if i + 2 ≤ buf.length then
    some ((buf.set i (v >>> 8)).set (i + 1) (v % 256))
  else
    none

/-- The loop body of toRGB565: write each pixel's two bytes at the running
index, advancing by 2; a failing write aborts (Go: panic). -/
def writePixels (img : Image) : List (Int × Int) → List Nat → Nat → Option (List Nat)
  | [], buf, _ => some buf
  | p :: ps, buf, i =>
    match putUint16BE buf i (pixelToRGB565 (img.colorAt p.1 p.2)) with
    | none => none
    | some buf2 => writePixels img ps buf2 (i + 2)

/-- The iteration domain of toRGB565's nested loops: x from 0 below Max.X
(outer), y from 0 below Max.Y (inner); Bounds().Min is never consulted. -/
def pixelList (img : Image) : List (Int × Int) :=
  (List.range img.maxX.toNat).flatMap fun (x : Nat) =>
    (List.range img.maxY.toNat).map fun (y : Nat) => ((x : Int), (y : Int))

/-- toRGB565: allocate 2*Dx()*Dy() zero bytes, then run the write loop over
the pixel list starting at index 0. -/
def toRGB565 (img : Image) : Option (List Nat) :=
  let size : Int := (img.maxX - img.minX) * (img.maxY - img.minY) * 2
  if size < 0 then none
  else writePixels img (pixelList img) (List.replicate size.toNat 0) 0

/-! ### sendData (Go: Dev.sendData)

sendData first drives the dc pin high (returning any pin error), then
splits the buffer: while data is nonempty, if longer than maxTxSize take
the first maxTxSize bytes as one chunk, else take all of it; each chunk is
one bus transaction d.c.Tx(chunk, nil) whose RESULT IS DISCARDED by the
loop.  The final return value is nil once the pin write succeeded.

The Go loop never terminates when maxTxSize = 0 and data is nonempty; the
fuel argument (initialized to the data length, an upper bound on the
iteration count for any positive maxTxSize) makes the model total, and all
theorems about chunking assume 0 < maxTxSize. -/

def chunksGo (m : Nat) : Nat → List Nat → List (List Nat)
  | 0, _ => []
  | _, [] => []
  | fuel + 1, data =>
    if m < data.length then data.take m :: chunksGo m fuel (data.drop m)
    else [data]

/-- The chunks passed to d.c.Tx by sendData's loop, in order. -/
def chunks (m : Nat) (data : List Nat) : List (List Nat) :=
  chunksGo m data.length data

/-- A transcript of one sendData call: its return value and the list of bus
transactions issued. -/
structure SendDataTrace where
  result : Option Err
  txs : List (List Nat)
deriving DecidableEq

/-- sendData under a dc-pin write result and a per-chunk transaction-result
oracle.  The loop calls d.c.Tx(chunk, nil) and discards the returned error,
so txRes influences nothing. -/
def sendData (dcRes : Option Err) (txRes : Nat → Option Err) (m : Nat)
    (data : List Nat) : SendDataTrace :=
  match dcRes with
  | some e => { result := some e, txs := [] }
  | none => { result := none, txs := chunks m data }

/-! ### Concrete images used to evaluate toRGB565 -/

/-- A 1x1 image (bounds (0,0)-(1,1)) whose single pixel has the given
16-bit-normalized channels. -/
def img1 (r g b a : Nat) : Image :=
  { minX := 0, minY := 0, maxX := 1, maxY := 1, colorAt := fun _ _ => ⟨r, g, b, a⟩ }

/-- An all-black image with bounds Min = (1, -10), Max = (2, 1): nonempty,
with Min.X > 0, used to probe toRGB565's treatment of nonzero bounds. -/
def imgShifted : Image :=
  { minX := 1, minY := -10, maxX := 2, maxY := 1, colorAt := fun _ _ => ⟨0, 0, 0, 0⟩ }

/-- The big-endian byte pair that toRGB565 stores for one pixel, as written
by binary.BigEndian.PutUint16. -/
def pixelBytes (img : Image) (p : Int × Int) : List Nat :=
  [pixelToRGB565 (img.colorAt p.1 p.2) >>> 8, pixelToRGB565 (img.colorAt p.1 p.2) % 256]

/-! ## Theorems -/

/-- Evaluation of toRGB565 on a 1x1 image; the alpha channel is queried but
never used, so the result only mentions the r, g, b channels. -/
theorem img1_eval (r g b a : Nat) : toRGB565 (img1 r g b a) =
    some [pixelToRGB565 ⟨r, g, b, 0⟩ >>> 8, pixelToRGB565 ⟨r, g, b, 0⟩ % 256] := rfl

/-- C2: the claim that both geometries' ranges lie within
[0, width) x [0, height) is false at ModelMini: its OffsetYEnd is 160,
which is not below height = 132. -/
theorem claim_C2_counterexample :
    ModelMini.offsetYEnd = 160 ∧ ¬ ModelMini.offsetYEnd < height := by decide

/-- C2 (amended): for both geometries OffsetXEnd > OffsetX and
OffsetYEnd > OffsetY, and all four ranges start at a nonnegative byte; the
X ranges and ModelStandard's Y range lie within [0, width) resp.
[0, height), but ModelMini's Y range [1, 160] only lies within
[0, width) = [0, 162), not within [0, height) = [0, 132). -/
theorem claim_C2_amended :
    (ModelStandard.offsetX < ModelStandard.offsetXEnd ∧
      ModelStandard.offsetY < ModelStandard.offsetYEnd ∧
      ModelStandard.offsetXEnd < width ∧
      ModelStandard.offsetYEnd < height) ∧
    (ModelMini.offsetX < ModelMini.offsetXEnd ∧
      ModelMini.offsetY < ModelMini.offsetYEnd ∧
      ModelMini.offsetXEnd < width ∧
      ModelMini.offsetYEnd < width ∧
      ¬ ModelMini.offsetYEnd < height) := by decide

/-- C3: on a 1x1 image, toRGB565 produces exactly two bytes; white maps to
FF FF, pure red to F8 00, pure green to 07 E0, pure blue to 00 1F, for any
alpha value. -/
theorem claim_C3 : ∀ a : Nat,
    toRGB565 (img1 65535 65535 65535 a) = some [0xFF, 0xFF] ∧
    toRGB565 (img1 65535 0 0 a) = some [0xF8, 0x00] ∧
    toRGB565 (img1 0 65535 0 a) = some [0x07, 0xE0] ∧
    toRGB565 (img1 0 0 65535 a) = some [0x00, 0x1F] := by
  intro a
  refine ⟨?_, ?_, ?_, ?_⟩ <;> rw [img1_eval] <;> decide

/-- C4: in the initialization table built by New, the partial-mode-off
entry (0x13) and the display-on entry (0x29) each carry the 16-byte
negative-gamma payload (a verbatim copy of the 0xE1 entry's table), with
delays of 10 ms and 100 ms respectively.  The claim (and the controller
datasheet, whose PTLOFF and DISPON commands take no parameters) says these
two commands carry no payload; the code attaches one. -/
theorem claim_C4 (m : ModelOffsets) :
    ((initCommands m)[19]? = some
      { command := partialOff,
        data := some [0x03, 0x1d, 0x07, 0x06, 0x2E, 0x2C, 0x29, 0x2D,
                      0x2E, 0x2E, 0x37, 0x3F, 0x00, 0x00, 0x02, 0x10],
        delay := 10 * millisecond }) ∧
    ((initCommands m)[20]? = some
      { command := displayOn,
        data := some [0x03, 0x1d, 0x07, 0x06, 0x2E, 0x2C, 0x29, 0x2D,
                      0x2E, 0x2E, 0x37, 0x3F, 0x00, 0x00, 0x02, 0x10],
        delay := 100 * millisecond }) ∧
    ((initCommands m)[19]?.map fun c => (c.data.getD []).length) = some 16 ∧
    ((initCommands m)[20]?.map fun c => (c.data.getD []).length) = some 16 := by
  exact ⟨rfl, rfl, rfl, rfl⟩

/-- C5: the claim that a transport error on the FIRST chunk's bus
transaction is observed and returned is false: here the transaction-result
oracle fails on chunk 0, the data/command-pin write succeeds, and sendData
still returns no error. -/
theorem claim_C5_counterexample :
    (sendData none (fun i => if i = 0 then some ⟨1⟩ else none) 4096
        (List.replicate 10000 0)).result = none ∧
    (none : Option Err) ≠ some ⟨1⟩ := by
  exact ⟨rfl, by decide⟩

/-- C5 (amended): sendData's return value equals the data/command-pin write
result alone; every chunk's transaction result — the first chunk's
included — is discarded, for every transaction-result oracle, maximum
transaction size and buffer. -/
theorem claim_C5_amended (dcRes : Option Err) (txRes : Nat → Option Err)
    (m : Nat) (data : List Nat) :
    (sendData dcRes txRes m data).result = dcRes := by
  cases dcRes <;> rfl

/-- C10: New's column-address and row-address entries carry the 5-byte
payload {opcode, 0x00, start, 0x00, end} whose first byte repeats the
opcode, while setWindowAddress builds 4-byte payloads
{high byte, low byte, high byte, low byte} whose high bytes are 0 for
byte-valued coordinates; for the same window the two paths transmit
different byte sequences. -/
theorem claim_C10 (m : ModelOffsets) (x0 x1 y0 y1 : Nat)
    (hx0 : x0 ≤ 255) (hx1 : x1 ≤ 255) (hy0 : y0 ≤ 255) (hy1 : y1 ≤ 255) :
    ((initCommands m)[15]? = some
      { command := columnAddress,
        data := some [columnAddress, 0x00, m.offsetX, 0x00, m.offsetXEnd] }) ∧
    ((initCommands m)[16]? = some
      { command := rowAddress,
        data := some [rowAddress, 0x00, m.offsetY, 0x00, m.offsetYEnd] }) ∧
    (columnCommand x0 x1).data = some [0x00, x0, 0x00, x1] ∧
    (rowCommand y0 y1).data = some [0x00, y0, 0x00, y1] ∧
    (columnCommand m.offsetX m.offsetXEnd).data ≠
      some [columnAddress, 0x00, m.offsetX, 0x00, m.offsetXEnd] ∧
    (rowCommand m.offsetY m.offsetYEnd).data ≠
      some [rowAddress, 0x00, m.offsetY, 0x00, m.offsetYEnd] := by
  have hsh : ∀ v : Nat, v ≤ 255 → v >>> 8 = 0 := by
    intro v hv
    rw [Nat.shiftRight_eq_div_pow]
    omega
  refine ⟨rfl, rfl, ?_, ?_, ?_, ?_⟩
  · simp [columnCommand, hsh x0 hx0, hsh x1 hx1]
  · simp [rowCommand, hsh y0 hy0, hsh y1 hy1]
  · simp only [columnCommand, Ne, Option.some.injEq]
    intro h
    have := congrArg List.length h
    simp at this
  · simp only [rowCommand, Ne, Option.some.injEq]
    intro h
    have := congrArg List.length h
    simp at this

/-- C10 witness: the theorem at ModelStandard with the standard window
coordinates. -/
theorem claim_C10_witness :
    ((initCommands ModelStandard)[15]? = some
      { command := columnAddress,
        data := some [columnAddress, 0x00, ModelStandard.offsetX, 0x00,
                      ModelStandard.offsetXEnd] }) ∧
    ((initCommands ModelStandard)[16]? = some
      { command := rowAddress,
        data := some [rowAddress, 0x00, ModelStandard.offsetY, 0x00,
                      ModelStandard.offsetYEnd] }) ∧
    (columnCommand 0 161).data = some [0x00, 0, 0x00, 161] ∧
    (rowCommand 0 131).data = some [0x00, 0, 0x00, 131] ∧
    (columnCommand ModelStandard.offsetX ModelStandard.offsetXEnd).data ≠
      some [columnAddress, 0x00, ModelStandard.offsetX, 0x00,
            ModelStandard.offsetXEnd] ∧
    (rowCommand ModelStandard.offsetY ModelStandard.offsetYEnd).data ≠
      some [rowAddress, 0x00, ModelStandard.offsetY, 0x00,
            ModelStandard.offsetYEnd] :=
  claim_C10 ModelStandard 0 161 0 131 (by decide) (by decide) (by decide) (by decide)

/-- The fuel argument of chunksGo is irrelevant once it covers the data
length (any positive chunk size shortens the data every iteration). -/
theorem chunksGo_fuel (m : Nat) (hm : 0 < m) :
    ∀ fuel data, data.length ≤ fuel → chunksGo m fuel data = chunksGo m data.length data := by
  intro fuel
  induction fuel using Nat.strong_induction_on with
  | _ fuel ih =>
    match fuel with
    | 0 =>
      intro data hlen
      have : data = [] := List.eq_nil_of_length_eq_zero (by omega)
      subst this
      rfl
    | f + 1 =>
      intro data hlen
      match data with
      | [] => rfl
      | d :: ds =>
        show chunksGo m (f + 1) (d :: ds) = chunksGo m (ds.length + 1) (d :: ds)
        simp only [chunksGo]
        by_cases h : m < (d :: ds).length
        · rw [if_pos h, if_pos h]
          have hlen' : ((d :: ds).drop m).length ≤ f := by
            simp only [List.length_drop, List.length_cons] at *
            omega
          rw [ih f (by omega) _ hlen',
            ih ds.length (by simp only [List.length_cons] at hlen; omega) _
              (by simp only [List.length_drop, List.length_cons]; omega)]
        · rw [if_neg h, if_neg h]

/-- Loop step of sendData when the remaining data exceeds maxTxSize: one
maxTxSize-byte chunk is cut off the front. -/
theorem chunks_eq_of_gt (m : Nat) (data : List Nat) (hm : 0 < m)
    (h : m < data.length) :
    chunks m data = data.take m :: chunks m (data.drop m) := by
  match data with
  | [] => simp at h
  | d :: ds =>
    show chunksGo m (d :: ds).length (d :: ds) = _
    rw [show (d :: ds).length = ds.length + 1 from rfl]
    simp only [chunksGo]
    rw [if_pos (by simpa using h)]
    rw [chunksGo_fuel m hm ds.length _ (by simp only [List.length_drop, List.length_cons]; omega)]
    rfl

/-- Loop step of sendData when the remaining data fits in one transaction:
it is sent whole and the loop stops. -/
theorem chunks_eq_of_le (m : Nat) (data : List Nat) (hne : data ≠ [])
    (h : data.length ≤ m) :
    chunks m data = [data] := by
  match data with
  | [] => exact absurd rfl hne
  | d :: ds =>
    show chunksGo m (d :: ds).length (d :: ds) = _
    rw [show (d :: ds).length = ds.length + 1 from rfl]
    simp only [chunksGo]
    rw [if_neg (by simp only [List.length_cons] at h ⊢; omega)]

/-- Chunking splits the buffer without loss: every chunk is at most
maxTxSize bytes and the chunks concatenate back to the buffer. -/
theorem chunks_spec (m : Nat) (hm : 0 < m) :
    ∀ (n : Nat) (data : List Nat), data.length ≤ n →
      (chunks m data).flatten = data ∧ ∀ c ∈ chunks m data, c.length ≤ m := by
  intro n
  induction n with
  | zero =>
    intro data hlen
    have : data = [] := List.eq_nil_of_length_eq_zero (by omega)
    subst this
    exact ⟨rfl, by intro c hc; simp [chunks, chunksGo] at hc⟩
  | succ n ih =>
    intro data hlen
    by_cases h : m < data.length
    · rw [chunks_eq_of_gt m data hm h]
      have hdrop := ih (data.drop m) (by simp only [List.length_drop]; omega)
      constructor
      · simp only [List.flatten_cons, hdrop.1, List.take_append_drop]
      · intro c hc
        rcases List.mem_cons.mp hc with rfl | hc
        · simp only [List.length_take]
          omega
        · exact hdrop.2 c hc
    · match data with
      | [] => exact ⟨rfl, by intro c hc; simp [chunks, chunksGo] at hc⟩
      | d :: ds =>
        rw [chunks_eq_of_le m (d :: ds) (by simp) (by omega)]
        exact ⟨by simp, by intro c hc; simp at hc; subst hc; omega⟩

/-- C6: with maxTxSize = 4096 and a 10000-byte buffer (after a successful
pin write), sendData issues exactly 3 bus transactions of sizes 4096, 4096
and 1808, each chunk being one Tx call; in general, for any positive
maxTxSize, every chunk is at most maxTxSize bytes and the chunks
concatenate to the original buffer. -/
theorem claim_C6 :
    ((sendData none (fun _ => none) 4096 (List.replicate 10000 0)).txs.map
      List.length = [4096, 4096, 1808]) ∧
    ∀ (m : Nat) (data : List Nat), 0 < m →
      (chunks m data).flatten = data ∧ ∀ c ∈ chunks m data, c.length ≤ m := by
  constructor
  · simp only [sendData]
    rw [chunks_eq_of_gt 4096 (List.replicate 10000 0) (by omega)
      (by rw [List.length_replicate]; omega)]
    rw [List.drop_replicate]
    rw [chunks_eq_of_gt 4096 (List.replicate (10000 - 4096) 0) (by omega)
      (by rw [List.length_replicate]; omega)]
    rw [List.drop_replicate]
    rw [chunks_eq_of_le 4096 (List.replicate (10000 - 4096 - 4096) 0)
      (List.ne_nil_of_length_pos (by rw [List.length_replicate]; omega))
      (by rw [List.length_replicate]; omega)]
    simp only [List.map_cons, List.map_nil, List.take_replicate, List.length_replicate]
    norm_num
  · intro m data hm
    exact chunks_spec m hm data.length data le_rfl

/-- C6 witness: the general chunking bound applied at maxTxSize = 2 on a
concrete 3-byte buffer. -/
theorem claim_C6_witness :
    (chunks 2 [7, 8, 9]).flatten = [7, 8, 9] ∧ ∀ c ∈ chunks 2 [7, 8, 9], c.length ≤ 2 :=
  claim_C6.2 2 [7, 8, 9] (by decide)

/-- Running the command loop over a window of the command list with no
failing send issues every command and reports no error. -/
theorem runInitFrom_ok (res : Nat → Option Err) :
    ∀ (cs : List Command) (k : Nat), (∀ j, j < cs.length → res (k + j) = none) →
      runInitFrom res k cs = (cs, none) := by
  intro cs
  induction cs with
  | nil => intro k _; rfl
  | cons c cs ih =>
    intro k h
    have h0 : res k = none := by simpa using h 0 (by simp)
    have hrest := ih (k + 1) (fun j hj => by
      have := h (j + 1) (by simp only [List.length_cons]; omega)
      rwa [show k + (j + 1) = k + 1 + j by omega] at this)
    simp only [runInitFrom, h0, hrest]

/-- Running the command loop when the first failing send is at relative
position i issues exactly the first i+1 commands and returns that error. -/
theorem runInitFrom_fail (res : Nat → Option Err) (e : Err) :
    ∀ (cs : List Command) (i k : Nat), (∀ j, j < i → res (k + j) = none) →
      res (k + i) = some e → i < cs.length →
      runInitFrom res k cs = (cs.take (i + 1), some e) := by
  intro cs
  induction cs with
  | nil => intro i k _ _ h; simp at h
  | cons c cs ih =>
    intro i k hfirst hfail hlen
    match i with
    | 0 =>
      have h0 : res k = some e := by simpa using hfail
      simp [runInitFrom, h0]
    | i + 1 =>
      have h0 : res k = none := by simpa using hfirst 0 (by omega)
      have hrest := ih i (k + 1)
        (fun j hj => by
          have := hfirst (j + 1) (by omega)
          rwa [show k + (j + 1) = k + 1 + j by omega] at this)
        (by rwa [show k + (i + 1) = k + 1 + i by omega] at hfail)
        (by simpa using hlen)
      simp only [runInitFrom, h0, hrest, List.take_succ_cons]

/-- C7: New issues exactly the fixed ordered 21-command table — opcodes
0x01, 0x11, 0xB1, 0xB2, 0xB3, 0xB4, 0xC0, 0xC1, 0xC2, 0xC3, 0xC4, 0xC5,
0x21, 0x36, 0x3A, 0x2A, 0x2B, 0xE0, 0xE1, 0x13, 0x29, in that order — and
for any send-result oracle: if all sends succeed every command is issued
with no error, and if position i is the first failing send, exactly the
first i+1 commands are issued and that error is returned at once. -/
theorem claim_C7 :
    (∀ m : ModelOffsets, (initCommands m).map Command.command =
      [0x01, 0x11, 0xB1, 0xB2, 0xB3, 0xB4, 0xC0, 0xC1, 0xC2, 0xC3, 0xC4,
       0xC5, 0x21, 0x36, 0x3A, 0x2A, 0x2B, 0xE0, 0xE1, 0x13, 0x29]) ∧
    (∀ (m : ModelOffsets) (res : Nat → Option Err),
      (∀ j, j < (initCommands m).length → res j = none) →
      newInit m res = (initCommands m, none)) ∧
    (∀ (m : ModelOffsets) (res : Nat → Option Err) (i : Nat) (e : Err),
      (∀ j, j < i → res j = none) → res i = some e →
      i < (initCommands m).length →
      newInit m res = ((initCommands m).take (i + 1), some e)) := by
  refine ⟨fun m => rfl, ?_, ?_⟩
  · intro m res h
    exact runInitFrom_ok res (initCommands m) 0 (fun j hj => by simpa using h j hj)
  · intro m res i e hfirst hfail hlen
    exact runInitFrom_fail res e (initCommands m) i 0
      (fun j hj => by simpa using hfirst j hj) (by simpa using hfail) hlen

/-- C7 witness: with an oracle failing first at position 2, New issues
exactly the first three commands of the table and returns error code 7. -/
theorem claim_C7_witness :
    newInit ModelStandard (fun j => if j = 2 then some ⟨7⟩ else none) =
      ((initCommands ModelStandard).take 3, some ⟨7⟩) :=
  claim_C7.2.2 ModelStandard (fun j => if j = 2 then some ⟨7⟩ else none) 2 ⟨7⟩
    (by decide) (by decide) (by decide)

/-- Setting an element past a prefix sets it in the suffix. -/
theorem set_append_add (l1 l2 : List Nat) (k : Nat) (x : Nat) :
    (l1 ++ l2).set (l1.length + k) x = l1 ++ l2.set k x := by
  induction l1 with
  | nil => simp
  | cons a l1 ih =>
    simp only [List.cons_append, List.length_cons]
    rw [show l1.length + 1 + k = (l1.length + k) + 1 by omega, List.set_cons_succ, ih]

/-- The write loop of toRGB565, run over a buffer with enough room after a
written prefix, fills the next bytes with the pixels' big-endian byte
pairs and leaves the tail of the suffix in place. -/
theorem writePixels_append (img : Image) :
    ∀ (ps : List (Int × Int)) (pre suf : List Nat), 2 * ps.length ≤ suf.length →
      writePixels img ps (pre ++ suf) pre.length =
        some (pre ++ ps.flatMap (pixelBytes img) ++ suf.drop (2 * ps.length)) := by
  intro ps
  induction ps with
  | nil => intro pre suf _; simp [writePixels]
  | cons p ps ih =>
    intro pre suf hlen
    match suf with
    | [] => simp at hlen
    | [a] => simp at hlen; omega
    | a :: b :: suf =>
      simp only [writePixels, putUint16BE]
      rw [if_pos (by simp only [List.length_append, List.length_cons]; omega)]
      have e1 : (pre ++ a :: b :: suf).set pre.length
            (pixelToRGB565 (img.colorAt p.1 p.2) >>> 8)
          = pre ++ (pixelToRGB565 (img.colorAt p.1 p.2) >>> 8) :: b :: suf := by
        simpa using set_append_add pre (a :: b :: suf) 0
          (pixelToRGB565 (img.colorAt p.1 p.2) >>> 8)
      rw [e1]
      have e2 : (pre ++ (pixelToRGB565 (img.colorAt p.1 p.2) >>> 8) :: b :: suf).set
            (pre.length + 1) (pixelToRGB565 (img.colorAt p.1 p.2) % 256)
          = pre ++ (pixelToRGB565 (img.colorAt p.1 p.2) >>> 8) ::
              (pixelToRGB565 (img.colorAt p.1 p.2) % 256) :: suf := by
        simpa using set_append_add pre
          ((pixelToRGB565 (img.colorAt p.1 p.2) >>> 8) :: b :: suf) 1
          (pixelToRGB565 (img.colorAt p.1 p.2) % 256)
      rw [e2]
      rw [show pre ++ (pixelToRGB565 (img.colorAt p.1 p.2) >>> 8) ::
            (pixelToRGB565 (img.colorAt p.1 p.2) % 256) :: suf
          = (pre ++ [pixelToRGB565 (img.colorAt p.1 p.2) >>> 8,
              pixelToRGB565 (img.colorAt p.1 p.2) % 256]) ++ suf by simp]
      rw [show pre.length + 2
          = (pre ++ [pixelToRGB565 (img.colorAt p.1 p.2) >>> 8,
              pixelToRGB565 (img.colorAt p.1 p.2) % 256]).length by simp]
      dsimp only
      rw [ih _ suf (by simp only [List.length_cons] at hlen ⊢; omega)]
      simp only [List.flatMap_cons, pixelBytes, List.length_cons]
      rw [show 2 * (ps.length + 1) = 2 * ps.length + 1 + 1 by omega]
      simp [List.drop_succ_cons, List.append_assoc]

/-- The write loop fails (Go: panics on the slice bounds) whenever the
pixels to write need more room than the buffer has left. -/
theorem writePixels_overflow (img : Image) :
    ∀ (ps : List (Int × Int)) (buf : List Nat) (i : Nat), ps ≠ [] →
      buf.length < i + 2 * ps.length → writePixels img ps buf i = none := by
  intro ps
  induction ps with
  | nil => intro _ _ h _; exact absurd rfl h
  | cons p ps ih =>
    intro buf i _ hlen
    simp only [writePixels, putUint16BE]
    by_cases hle : i + 2 ≤ buf.length
    · rw [if_pos hle]
      match ps with
      | [] =>
        exact absurd hle (by simp only [List.length_cons, List.length_nil] at hlen; omega)
      | q :: ps' =>
        apply ih _ _ (by simp)
        simp only [List.length_set, List.length_cons] at hlen ⊢
        omega
    · rw [if_neg hle]

/-- Length of a flatMap whose pieces all have length L. -/
theorem length_flatMap_const {α β : Type} (L : Nat) (f : α → List β)
    (hf : ∀ a, (f a).length = L) (l : List α) :
    (l.flatMap f).length = l.length * L := by
  induction l with
  | nil => simp
  | cons a l ih =>
    simp only [List.flatMap_cons, List.length_append, List.length_cons, hf, ih]
    ring

/-- The number of loop iterations of toRGB565: Max.X * Max.Y (clamped at
zero), independent of Bounds().Min. -/
theorem pixelList_length (img : Image) :
    (pixelList img).length = img.maxX.toNat * img.maxY.toNat := by
  rw [pixelList, length_flatMap_const img.maxY.toNat _ (fun a => by simp)]
  simp

/-- toRGB565 on an image whose bounds start at (0,0): the allocation is
exact, every write lands in range, and the result is the concatenation of
the pixels' big-endian byte pairs in column-major order. -/
theorem toRGB565_of_min_zero (img : Image) (h1 : img.minX = 0) (h2 : img.minY = 0)
    (h3 : 0 ≤ img.maxX) (h4 : 0 ≤ img.maxY) :
    toRGB565 img = some ((pixelList img).flatMap (pixelBytes img)) := by
  have hA : img.maxX = (img.maxX.toNat : Int) := (Int.toNat_of_nonneg h3).symm
  have hB : img.maxY = (img.maxY.toNat : Int) := (Int.toNat_of_nonneg h4).symm
  simp only [toRGB565, h1, h2, Int.sub_zero]
  rw [show img.maxX * img.maxY * 2
      = ((img.maxX.toNat * img.maxY.toNat * 2 : Nat) : Int) by
    conv_lhs => rw [hA, hB]
    push_cast; ring]
  rw [if_neg (by exact Int.not_lt.mpr (Int.natCast_nonneg _))]
  rw [Int.toNat_natCast]
  have hw := writePixels_append img (pixelList img) []
    (List.replicate (img.maxX.toNat * img.maxY.toNat * 2) 0)
    (by rw [List.length_replicate, pixelList_length]; omega)
  simp only [List.nil_append, List.length_nil] at hw
  rw [hw, List.drop_replicate, pixelList_length]
  rw [show img.maxX.toNat * img.maxY.toNat * 2
      - 2 * (img.maxX.toNat * img.maxY.toNat) = 0 by omega]
  simp

/-- Indexing a flatMap over a counting list whose pieces all have length
L: position L * x + j falls in piece x at offset j. -/
theorem flatMap_range'_getElem {α : Type} (f : Nat → List α) (L : Nat)
    (hf : ∀ i, (f i).length = L) :
    ∀ (n s x j : Nat), x < n → j < L →
      ((List.range' s n).flatMap f)[L * x + j]? = (f (s + x))[j]? := by
  intro n
  induction n with
  | zero => intro s x j hx _; omega
  | succ n ih =>
    intro s x j hx hj
    rw [List.range'_succ, List.flatMap_cons]
    match x with
    | 0 =>
      rw [List.getElem?_append_left (by rw [hf]; omega)]
      simp
    | x + 1 =>
      rw [show L * (x + 1) + j = (f s).length + (L * x + j) by rw [hf]; ring]
      rw [List.getElem?_append_right (Nat.le_add_right _ _)]
      rw [Nat.add_sub_cancel_left]
      rw [ih (s + 1) x j (by omega) hj]
      rw [show s + 1 + x = s + (x + 1) by omega]

/-- The flat output buffer as a doubly nested flatMap over the x and y
counters. -/
theorem flatBytes_nested (img : Image) :
    (pixelList img).flatMap (pixelBytes img) =
      (List.range' 0 img.maxX.toNat).flatMap fun x =>
        (List.range' 0 img.maxY.toNat).flatMap fun y =>
          pixelBytes img ((x : Int), (y : Int)) := by
  simp only [pixelList, List.range_eq_range', List.flatMap_assoc, List.flatMap_map]

/-- The two bytes of pixel (x, y) sit at offsets 2*(x*H + y) and
2*(x*H + y) + 1 of the converted buffer. -/
theorem flatBytes_getElem (img : Image) (W H x y : Nat)
    (h3 : img.maxX = (W : Int)) (h4 : img.maxY = (H : Int))
    (hx : x < W) (hy : y < H) :
    ((pixelList img).flatMap (pixelBytes img))[2 * (x * H + y)]?
        = some (pixelToRGB565 (img.colorAt x y) >>> 8) ∧
    ((pixelList img).flatMap (pixelBytes img))[2 * (x * H + y) + 1]?
        = some (pixelToRGB565 (img.colorAt x y) % 256) := by
  have hA : img.maxX.toNat = W := by rw [h3]; exact Int.toNat_natCast W
  have hB : img.maxY.toNat = H := by rw [h4]; exact Int.toNat_natCast H
  have hrow : ∀ x' : Nat,
      ((List.range' 0 H).flatMap fun (y' : Nat) =>
        pixelBytes img ((x' : Int), (y' : Int))).length = 2 * H := by
    intro x'
    rw [length_flatMap_const 2
      (fun (y' : Nat) => pixelBytes img ((x' : Int), (y' : Int))) (fun a => rfl),
      List.length_range']
    ring
  have houter := flatMap_range'_getElem
    (fun (x' : Nat) => (List.range' 0 H).flatMap fun (y' : Nat) =>
      pixelBytes img ((x' : Int), (y' : Int)))
    (2 * H) hrow W 0
  have hinner := flatMap_range'_getElem
    (fun (y' : Nat) => pixelBytes img ((x : Int), (y' : Int))) 2 (fun a => rfl) H 0
  constructor
  · rw [flatBytes_nested, hA, hB]
    rw [show 2 * (x * H + y) = (2 * H) * x + (2 * y + 0) by ring]
    rw [houter x (2 * y + 0) hx (by omega)]
    simp only [Nat.zero_add]
    rw [show 2 * y + 0 = 2 * y + 0 by rfl]
    rw [hinner y 0 hy (by omega)]
    simp [pixelBytes]
  · rw [flatBytes_nested, hA, hB]
    rw [show 2 * (x * H + y) + 1 = (2 * H) * x + (2 * y + 1) by ring]
    rw [houter x (2 * y + 1) hx (by omega)]
    simp only [Nat.zero_add]
    rw [hinner y 1 hy (by omega)]
    simp [pixelBytes]

/-- C8: for an image with bounds [0,W) x [0,H), toRGB565 returns a buffer
of exactly 2*(W*H) bytes, ordered column-major (outer loop over x, inner
over y): pixel (x,y)'s big-endian byte pair sits at offsets 2*(x*H+y) and
2*(x*H+y)+1. -/
theorem claim_C8 (img : Image) (W H : Nat) (h1 : img.minX = 0) (h2 : img.minY = 0)
    (h3 : img.maxX = (W : Int)) (h4 : img.maxY = (H : Int)) :
    ∃ buf, toRGB565 img = some buf ∧ buf.length = 2 * (W * H) ∧
      ∀ (x y : Nat), x < W → y < H →
        buf[2 * (x * H + y)]? = some (pixelToRGB565 (img.colorAt x y) >>> 8) ∧
        buf[2 * (x * H + y) + 1]? = some (pixelToRGB565 (img.colorAt x y) % 256) := by
  refine ⟨(pixelList img).flatMap (pixelBytes img),
    toRGB565_of_min_zero img h1 h2 (by rw [h3]; exact Int.natCast_nonneg W)
      (by rw [h4]; exact Int.natCast_nonneg H), ?_, ?_⟩
  · rw [length_flatMap_const 2 (pixelBytes img) (fun a => rfl), pixelList_length]
    rw [h3, h4, Int.toNat_natCast, Int.toNat_natCast]
    ring
  · intro x y hx hy
    exact flatBytes_getElem img W H x y h3 h4 hx hy

/-- C8 witness: the theorem at a concrete 1x1 image. -/
theorem claim_C8_witness :
    ∃ buf, toRGB565 (img1 1 2 3 4) = some buf ∧ buf.length = 2 * (1 * 1) ∧
      ∀ (x y : Nat), x < 1 → y < 1 →
        buf[2 * (x * 1 + y)]? = some (pixelToRGB565 ((img1 1 2 3 4).colorAt x y) >>> 8) ∧
        buf[2 * (x * 1 + y) + 1]? = some (pixelToRGB565 ((img1 1 2 3 4).colorAt x y) % 256) :=
  claim_C8 (img1 1 2 3 4) 1 1 rfl rfl rfl rfl

/-- Masking with a block of b ones starting at bit a extracts bits
a+b-1 .. a. -/
theorem and_mask_shift (x a b : Nat) :
    x &&& ((2 ^ b - 1) <<< a) = ((x >>> a) % 2 ^ b) <<< a := by
  apply Nat.eq_of_testBit_eq
  intro i
  simp only [Nat.testBit_and, Nat.testBit_shiftLeft, Nat.testBit_two_pow_sub_one,
    Nat.testBit_mod_two_pow, Nat.testBit_shiftRight]
  by_cases h1 : a ≤ i
  · by_cases h2 : i - a < b
    · simp [h1, h2, Nat.add_sub_cancel' h1, Bool.and_comm]
    · simp [h1, h2]
  · simp [h1]

/-- Bitwise or of a value shifted past n bits with a value below 2^n is
their sum. -/
theorem or_of_lt (u v n : Nat) (hv : v < 2 ^ n) :
    (u * 2 ^ n) ||| v = u * 2 ^ n + v := by
  rw [Nat.mul_comm]
  exact (Nat.mul_add_lt_is_or hv u).symm

/-- Or-ing the three disjoint 5/6/5 fields is the same as adding them. -/
theorem or565 (A B C : Nat) (hA : A < 32) (hB : B < 64) (hC : C < 32) :
    A * 2048 ||| B * 32 ||| C = A * 2048 + B * 32 + C := by
  have e1 : A * 2048 ||| B * 32 = A * 2048 + B * 32 := by
    have h := or_of_lt A (B * 32) 11 (by omega)
    norm_num at h
    exact h
  rw [e1, show A * 2048 + B * 32 = (A * 64 + B) * 32 by ring]
  have h := or_of_lt (A * 64 + B) C 5 (by omega)
  norm_num at h
  rw [h]

/-- The packed pixel value decomposed into its three fields: bits 15..11
hold bits 7..3 of the red channel, bits 10..5 hold bits 7..2 of the green
channel, bits 4..0 hold bits 7..3 of the blue channel. -/
theorem pixelToRGB565_fields (c : Color) :
    pixelToRGB565 c = ((c.r / 8) % 32) * 2048 + ((c.g / 4) % 64) * 32 + (c.b / 8) % 32 := by
  have hr : (c.r <<< 8) &&& 0b1111100000000000 = ((c.r / 8) % 32) * 2048 := by
    rw [show (0b1111100000000000 : Nat) = (2 ^ 5 - 1) <<< 11 by decide, and_mask_shift]
    rw [Nat.shiftLeft_eq, Nat.shiftLeft_eq, Nat.shiftRight_eq_div_pow]
    norm_num
    rw [show c.r * 256 / 2048 = c.r / 8 by omega]
  have hg : (c.g <<< 3) &&& 0b0000011111100000 = ((c.g / 4) % 64) * 32 := by
    rw [show (0b0000011111100000 : Nat) = (2 ^ 6 - 1) <<< 5 by decide, and_mask_shift]
    rw [Nat.shiftLeft_eq, Nat.shiftLeft_eq, Nat.shiftRight_eq_div_pow]
    norm_num
    rw [show c.g * 8 / 32 = c.g / 4 by omega]
  have hb : (c.b >>> 3) &&& 0b0000000000011111 = (c.b / 8) % 32 := by
    rw [show (0b0000000000011111 : Nat) = 2 ^ 5 - 1 by decide,
      Nat.and_pow_two_sub_one_eq_mod, Nat.shiftRight_eq_div_pow]
  rw [pixelToRGB565, hr, hg, hb]
  exact or565 _ _ _ (Nat.mod_lt _ (by omega)) (Nat.mod_lt _ (by omega))
    (Nat.mod_lt _ (by omega))

/-- C1 (amended): for every pixel of an image with bounds [0,W) x [0,H),
toRGB565 emits a 16-bit value packed big-endian whose bits 15..11 are bits
7..3 of the red channel (the top 5 bits of its LOW byte, not of the full
16-bit value), bits 10..5 are bits 7..2 of the green channel, and bits
4..0 are bits 7..3 of the blue channel, for all channel values. -/
theorem claim_C1_amended (img : Image) (W H : Nat) (x y : Nat)
    (h1 : img.minX = 0) (h2 : img.minY = 0)
    (h3 : img.maxX = (W : Int)) (h4 : img.maxY = (H : Int))
    (hx : x < W) (hy : y < H) :
    ∃ buf v, toRGB565 img = some buf ∧
      buf[2 * (x * H + y)]? = some (v >>> 8) ∧
      buf[2 * (x * H + y) + 1]? = some (v % 256) ∧
      v < 65536 ∧
      v / 2048 = ((img.colorAt x y).r / 8) % 32 ∧
      v / 32 % 64 = ((img.colorAt x y).g / 4) % 64 ∧
      v % 32 = ((img.colorAt x y).b / 8) % 32 := by
  refine ⟨(pixelList img).flatMap (pixelBytes img), pixelToRGB565 (img.colorAt x y),
    toRGB565_of_min_zero img h1 h2 (by rw [h3]; exact Int.natCast_nonneg W)
      (by rw [h4]; exact Int.natCast_nonneg H),
    (flatBytes_getElem img W H x y h3 h4 hx hy).1,
    (flatBytes_getElem img W H x y h3 h4 hx hy).2, ?_, ?_, ?_, ?_⟩ <;>
  · rw [pixelToRGB565_fields]
    have h1 := Nat.mod_lt ((img.colorAt ↑x ↑y).r / 8) (show 0 < 32 by omega)
    have h2 := Nat.mod_lt ((img.colorAt ↑x ↑y).g / 4) (show 0 < 64 by omega)
    have h3 := Nat.mod_lt ((img.colorAt ↑x ↑y).b / 8) (show 0 < 32 by omega)
    omega

/-- C1 amended witness: the theorem at a 1x1 image whose red channel is
0xFF00; the emitted field (bits 15..11 = 0) matches bits 7..3 of red. -/
theorem claim_C1_amended_witness :
    ∃ buf v, toRGB565 (img1 0xFF00 0 0 0) = some buf ∧
      buf[2 * (0 * 1 + 0)]? = some (v >>> 8) ∧
      buf[2 * (0 * 1 + 0) + 1]? = some (v % 256) ∧
      v < 65536 ∧
      v / 2048 = (((img1 0xFF00 0 0 0).colorAt 0 0).r / 8) % 32 ∧
      v / 32 % 64 = (((img1 0xFF00 0 0 0).colorAt 0 0).g / 4) % 64 ∧
      v % 32 = (((img1 0xFF00 0 0 0).colorAt 0 0).b / 8) % 32 :=
  claim_C1_amended (img1 0xFF00 0 0 0) 1 1 0 0 rfl rfl rfl rfl
    (by decide) (by decide)

/-- C1: the claim that bits 15..11 of the packed value are the TOP 5 bits
of the 16-bit red channel is false at red = 0xFF00 (top 5 bits all ones):
the code packs bits 7..3 instead, giving 0, and the emitted bytes for a
1x1 image with that pixel are 00 00 rather than F8 00. -/
theorem claim_C1_counterexample :
    pixelToRGB565 ⟨0xFF00, 0, 0, 0⟩ >>> 11 ≠ 0xFF00 >>> 11 ∧
    toRGB565 (img1 0xFF00 0 0 0) = some [0x00, 0x00] := by
  exact ⟨by decide, rfl⟩

/-- C9: the claim that every image whose bounds minimum has Min.X > 0 or
Min.Y > 0 drives the write index out of range is false at bounds
Min = (1, -10), Max = (2, 1): the loops run 2 iterations, the buffer holds
1*11*2 = 22 bytes, and the conversion completes without any out-of-range
index (and Max.X*Max.Y = 2 is not greater than Dx*Dy = 11). -/
theorem claim_C9_counterexample :
    0 < imgShifted.minX ∧
    toRGB565 imgShifted = some (List.replicate 22 0) ∧
    ¬ imgShifted.maxX * imgShifted.maxY >
        (imgShifted.maxX - imgShifted.minX) * (imgShifted.maxY - imgShifted.minY) := by
  exact ⟨by decide, rfl, by decide⟩

/-- C9 (amended): for every image with nonnegative bounds minimum,
nonempty bounds, and Min.X > 0 or Min.Y > 0, the loops iterate
Max.X * Max.Y > Dx*Dy times while the buffer holds only 2*Dx*Dy bytes, so
the running write index exceeds the buffer length and the indexing
operation goes out of range (the conversion panics). -/
theorem claim_C9_amended (img : Image)
    (hminX : 0 ≤ img.minX) (hminY : 0 ≤ img.minY)
    (hne1 : img.minX < img.maxX) (hne2 : img.minY < img.maxY)
    (hpos : 0 < img.minX ∨ 0 < img.minY) :
    toRGB565 img = none := by
  have hA : img.maxX = (img.maxX.toNat : Int) := by omega
  have hB : img.maxY = (img.maxY.toNat : Int) := by omega
  have ha : img.minX = (img.minX.toNat : Int) := by omega
  have hb : img.minY = (img.minY.toNat : Int) := by omega
  have haA : img.minX.toNat < img.maxX.toNat := by omega
  have hbB : img.minY.toNat < img.maxY.toNat := by omega
  simp only [toRGB565]
  rw [show (img.maxX - img.minX) * (img.maxY - img.minY) * 2
      = (((img.maxX.toNat - img.minX.toNat) * (img.maxY.toNat - img.minY.toNat) * 2
          : Nat) : Int) by
    conv_lhs => rw [hA, hB, ha, hb]
    push_cast [Nat.cast_sub (le_of_lt haA), Nat.cast_sub (le_of_lt hbB)]
    ring]
  rw [if_neg (Int.not_lt.mpr (Int.natCast_nonneg _))]
  rw [Int.toNat_natCast]
  apply writePixels_overflow
  · apply List.ne_nil_of_length_pos
    rw [pixelList_length]
    have : 0 < img.maxX.toNat := by omega
    have : 0 < img.maxY.toNat := by omega
    positivity
  · rw [List.length_replicate, pixelList_length]
    have key : (img.maxX.toNat - img.minX.toNat) * (img.maxY.toNat - img.minY.toNat)
        < img.maxX.toNat * img.maxY.toNat := by
      rcases hpos with hp | hp
      · calc (img.maxX.toNat - img.minX.toNat) * (img.maxY.toNat - img.minY.toNat)
            ≤ (img.maxX.toNat - img.minX.toNat) * img.maxY.toNat :=
              Nat.mul_le_mul_left _ (Nat.sub_le _ _)
          _ < img.maxX.toNat * img.maxY.toNat := by
              apply Nat.mul_lt_mul_of_lt_of_le (Nat.sub_lt (by omega) (by omega))
                le_rfl (by omega)
      · calc (img.maxX.toNat - img.minX.toNat) * (img.maxY.toNat - img.minY.toNat)
            ≤ img.maxX.toNat * (img.maxY.toNat - img.minY.toNat) :=
              Nat.mul_le_mul_right _ (Nat.sub_le _ _)
          _ < img.maxX.toNat * img.maxY.toNat := by
              apply Nat.mul_lt_mul_of_le_of_lt le_rfl
                (Nat.sub_lt (by omega) (by omega)) (by omega)
    omega

/-- C9 amended witness: the theorem at an all-black image with bounds
Min = (1, 0), Max = (2, 1). -/
theorem claim_C9_amended_witness :
    toRGB565 (⟨1, 0, 2, 1, fun _ _ => ⟨0, 0, 0, 0⟩⟩ : Image) = none :=
  claim_C9_amended _ (by decide) (by decide) (by decide) (by decide)
    (Or.inl (by decide))

end ST7735
